import Mathlib

/-
Verification of the interval-reconstruction, session-scan and attribution
algorithms of the home-assistant-appdaemon repository.

Shallow embedding conventions:
  * timestamps are integers (seconds); `datetime`/`timedelta` comparisons and
    subtraction map to `Int` comparison and subtraction;
  * the float-valued cleaned-area states are modelled as rationals;
  * fallible operations (`state_at`, the history scan that can raise
    `ValueError`) return `Option`;
  * the namespace `Cosmo` embeds src/apps/cosmo/cosmo_monitor.py and the
    namespace `CosmoMonitor` embeds src/apps/cosmo_monitor/cosmo_monitor.py.
-/

/-- A raw Home Assistant state sample (class `HassStateTypeInfo` of
src/apps/cosmo/cosmo_monitor.py): a state value plus the `last_changed` and
`last_updated` timestamps. -/
structure HassStateTypeInfo (S : Type) where
  state : S
  last_changed : Int
  last_updated : Int
deriving DecidableEq, Repr

/-- A reconstructed interval (class `StateTypeInfo` of
src/apps/cosmo/cosmo_monitor.py): a state value held over
[start_time, end_time). -/
structure StateTypeInfo (S : Type) where
  state : S
  start_time : Int
  end_time : Int
deriving DecidableEq, Repr

/-- Method `_History.state_at` (src/apps/cosmo/cosmo_monitor.py lines
368-376): linear scan for the first interval whose [start_time, end_time)
contains the timestamp; the `ValueError` raised when none matches is
modelled as `none`. -/
def state_at {S : Type} (states : List (StateTypeInfo S)) (dttm : Int) :
    Option (StateTypeInfo S) :=
  states.find? fun st => decide (st.start_time ≤ dttm ∧ dttm < st.end_time)

/-- Insert a sample into a list sorted by `last_updated`, after all entries
with a strictly smaller key and before entries with an equal key. -/
def insertByUpdated {S : Type} (s : HassStateTypeInfo S) :
    List (HassStateTypeInfo S) → List (HassStateTypeInfo S)
  | [] => [s]
  | t :: ts =>
    if t.last_updated < s.last_updated then t :: insertByUpdated s ts
    else s :: t :: ts

/-- The stable ascending sort by `last_updated` performed by
`sorted(hass_history[0], key=operator.itemgetter("last_updated"))` in
`_History._get_hass_state_history` (src/apps/cosmo/cosmo_monitor.py lines
246-249): oldest to newest, ties kept in input order. -/
def sortByUpdated {S : Type} : List (HassStateTypeInfo S) → List (HassStateTypeInfo S)
  | [] => []
  | s :: rest => insertByUpdated s (sortByUpdated rest)

/-- Enum `Room` of src/apps/cosmo/cosmo_monitor.py, including the
`UNAVAILABLE` sentinel member. -/
inductive Room
  | bathroom
  | bedroom
  | en_suite
  | hallway
  | kitchen
  | lounge
  | office
  | unavailable
deriving DecidableEq, Repr

/-- Whether a room value is the `UNAVAILABLE` sentinel (comparison
`s["state"] != UNAVAILABLE` of the `_filter_unavailable_states`
validator, src/apps/cosmo/cosmo_monitor.py lines 213-219). -/
def Room.is_unavailable : Room → Bool
  | .unavailable => true
  | _ => false

/-- Property `Room.minimum_clean_area` (src/apps/cosmo/cosmo_monitor.py lines
115-126): the dictionary has no entry for `UNAVAILABLE`, so that lookup
raises `KeyError`, modelled as `none`. -/
def Room.minimum_clean_area : Room → Option ℚ
  | .bathroom => some 3
  | .bedroom => some 6
  | .en_suite => some 2
  | .hallway => some 7
  | .kitchen => some 5
  | .lounge => some 8
  | .office => some 5
  | .unavailable => none

/-- Enum `TaskStatus` of src/apps/cosmo/cosmo_monitor.py. -/
inductive TaskStatus
  | cleaning
  | cleaning_paused
  | completed
  | docking_paused
  | fast_mapping
  | map_cleaning_paused
  | room_cleaning
  | room_cleaning_paused
  | spot_cleaning
  | zone_cleaning
  | unavailable
deriving DecidableEq, Repr

/-- Property `TaskStatus.is_room_cleaning` (src/apps/cosmo/cosmo_monitor.py
lines 77-84). -/
def TaskStatus.is_room_cleaning : TaskStatus → Bool
  | .cleaning => true
  | .room_cleaning => true
  | .zone_cleaning => true
  | _ => false

/-- Property `TaskStatus.is_paused` (src/apps/cosmo/cosmo_monitor.py lines
86-94). -/
def TaskStatus.is_paused : TaskStatus → Bool
  | .cleaning_paused => true
  | .docking_paused => true
  | .map_cleaning_paused => true
  | .room_cleaning_paused => true
  | _ => false

/-- The signature of `_History.filter_current_state_out`
(src/apps/cosmo/cosmo_monitor.py lines 357-366): a predicate on the
next-older pending raw sample, the sample under consideration, and the
most recently emitted interval. -/
def Cosmo.FilterFn (S : Type) : Type :=
  Option (HassStateTypeInfo S) → HassStateTypeInfo S → Option (StateTypeInfo S) → Bool

/-- The default `_History.filter_current_state_out` (src/apps/cosmo/
cosmo_monitor.py lines 357-366): always false, no filtering. -/
def Cosmo.filter_current_state_out {S : Type} : Cosmo.FilterFn S :=
  fun _ _ _ => false

/-- The `while parsed_state_history:` merge loop of
`_History.from_state_history` (src/apps/cosmo/cosmo_monitor.py lines
305-344).  `pending` is the raw samples newest-first (popping the Python
list's tail is taking this list's head), `merged` is the emitted intervals
with the most recently emitted one (the chronologically oldest) at the head
(the Python list `merged_states` is this list reversed), and `endT` is the
mutable local `end_time`. -/
def Cosmo.mergeStates {S : Type} [DecidableEq S] (filt : Cosmo.FilterFn S) (lower : Int) :
    List (HassStateTypeInfo S) → List (StateTypeInfo S) → Int → List (StateTypeInfo S)
  | [], merged, _ => merged
  | s :: rest, [], endT =>
    if s.last_updated > endT ∨ filt rest.head? s none = true then
      Cosmo.mergeStates filt lower rest [] endT
    else if s.last_updated < lower then
      [⟨s.state, max lower s.last_changed, endT⟩]
    else
      Cosmo.mergeStates filt lower rest [⟨s.state, max lower s.last_changed, endT⟩] endT
  | s :: rest, next :: tail, endT =>
    if s.last_updated > endT ∨ filt rest.head? s (some next) = true then
      Cosmo.mergeStates filt lower rest (next :: tail) endT
    else if next.state = s.state then
      Cosmo.mergeStates filt lower rest
        (⟨next.state, max lower s.last_changed, next.end_time⟩ :: tail) endT
    else if s.last_updated < lower then
      ⟨s.state, max lower s.last_changed, next.start_time⟩ :: next :: tail
    else
      Cosmo.mergeStates filt lower rest
        (⟨s.state, max lower s.last_changed, next.start_time⟩ :: next :: tail)
        next.start_time

/-- Classmethod `_History.from_state_history` (src/apps/cosmo/
cosmo_monitor.py lines 270-355).  The `_filter_unavailable_states`
validator (lines 213-219) removes every sample whose state is the
`UNAVAILABLE` sentinel before the merge loop runs, and again on the final
`model_validate` of the merged states; `unavail` is that sentinel test.
The result is oldest-first unless `rev` is true. -/
def Cosmo.from_state_history {S : Type} [DecidableEq S] (unavail : S → Bool)
    (filt : Cosmo.FilterFn S) (samples : List (HassStateTypeInfo S))
    (lower_limit upper_limit : Int) (rev : Bool) : List (StateTypeInfo S) :=
  let parsed := sortByUpdated (samples.filter fun s => !unavail s.state)
  let merged := Cosmo.mergeStates filt lower_limit parsed.reverse [] upper_limit
  let states := merged.filter fun st => !unavail st.state
  if rev then states.reverse else states

/-- Property `_History.lower_limit` (src/apps/cosmo/cosmo_monitor.py lines
201-205): `self.states[0].start_time`; the `IndexError` on an empty history
is modelled as `none`. -/
def Cosmo.lower_limit? {S : Type} (states : List (StateTypeInfo S)) : Option Int :=
  states.head?.map fun st => st.start_time

/-- Property `_History.upper_limit` (src/apps/cosmo/cosmo_monitor.py lines
207-211): `self.states[-1].end_time`; the `IndexError` on an empty history
is modelled as `none`. -/
def Cosmo.upper_limit? {S : Type} (states : List (StateTypeInfo S)) : Option Int :=
  states.getLast?.map fun st => st.end_time

/-- Staticmethod `AreaCleanedHistory.filter_current_state_out`
(src/apps/cosmo/cosmo_monitor.py lines 396-416): drop the sample when there
is no older pending sample, a newer interval exists, the sample's value is
positive and the newer interval's value is exactly zero. -/
def Cosmo.AreaCleanedHistory.filter_current_state_out : Cosmo.FilterFn ℚ :=
  fun prev_state curr_state next_state =>
    match prev_state, next_state with
    | none, some next => decide (curr_state.state > 0) && decide (next.state = 0)
    | _, _ => false

/-- Staticmethod `CurrentRoomHistory.filter_current_state_out`
(src/apps/cosmo/cosmo_monitor.py lines 430-451): drop the sample when both
an older pending sample and a newer emitted interval exist, they share the
same state, and the newer interval starts less than 20 seconds after the
sample was last updated. -/
def Cosmo.CurrentRoomHistory.filter_current_state_out : Cosmo.FilterFn Room :=
  fun prev_state curr_state next_state =>
    match prev_state, next_state with
    | some prev, some next =>
      decide (prev.state = next.state) &&
        decide (next.start_time - curr_state.last_updated < 20)
    | _, _ => false

/-- The backward session scan of `CosmoMonitor._get_cleaning_period`
(src/apps/cosmo/cosmo_monitor.py lines 541-550), identical in
src/apps/cosmo_monitor/cosmo_monitor.py lines 328-337.  The input is the
task-status history newest-first (`reverse=True`); `acc` carries the pair
(clean_start_time, clean_end_time) once `clean_end_time` is set.  Breaking
out of the `for` loop returns the pair; exhausting the loop falls into the
`for ... else` clause, which raises `ValueError("No cleaning task status
found")`, modelled as `none`. -/
def Cosmo.cleaning_period_scan :
    List (StateTypeInfo TaskStatus) → Option (Int × Int) → Option (Int × Int)
  | [], _ => none
  | st :: rest, acc =>
    if st.state.is_room_cleaning then
      Cosmo.cleaning_period_scan rest (some (st.start_time, ((acc.map fun p => p.2).getD st.end_time)))
    else if !st.state.is_paused && acc.isSome then
      acc
    else
      Cosmo.cleaning_period_scan rest acc

/-- The per-room accumulator `AreaCleanedByRoom` (src/apps/cosmo/
cosmo_monitor.py lines 460-464): the accumulated area and the latest
`end_time` written for the room. -/
structure AreaCleanedByRoom where
  area : ℚ
  end_time : Int
deriving DecidableEq, Repr

/-- The `area_cleaned_by_room.setdefault(room, {"area": 0.0, "end_time":
...})` step (src/apps/cosmo/cosmo_monitor.py lines 502-508) on the
insertion-ordered dictionary, modelled as an association list: append the
default entry at the end unless the key is present. -/
def Cosmo.dict_setdefault (acc : List (Room × AreaCleanedByRoom)) (room : Room)
    (d : AreaCleanedByRoom) : List (Room × AreaCleanedByRoom) :=
  if acc.any fun p => decide (p.1 = room) then acc else acc ++ [(room, d)]

/-- The `area_cleaned_by_room[room]["area"] += ...` and `["end_time"] = ...`
steps (src/apps/cosmo/cosmo_monitor.py lines 510-514). -/
def Cosmo.dict_add (acc : List (Room × AreaCleanedByRoom)) (room : Room)
    (delta : ℚ) (endT : Int) : List (Room × AreaCleanedByRoom) :=
  acc.map fun p => if p.1 = room then (p.1, ⟨p.2.area + delta, endT⟩) else p

/-- The `for area_state in area_cleaned_history:` loop of
`CosmoMonitor._get_area_cleaned_by_room` (src/apps/cosmo/cosmo_monitor.py
lines 494-516): oldest-to-newest over the delta history, tracking
`prev_value` (initially `None`); the `ValueError` that `state_at` raises
when the room lookup fails propagates, modelled as `none`. -/
def Cosmo.area_cleaned_loop (room_history : List (StateTypeInfo Room)) :
    List (StateTypeInfo ℚ) → Option ℚ → List (Room × AreaCleanedByRoom) →
    Option (List (Room × AreaCleanedByRoom))
  | [], _, acc => some acc
  | a :: rest, prev_value, acc =>
    if ¬(a.state = 0 ∨ some a.state = prev_value) then
      match state_at room_history a.start_time with
      | none => none
      | some room_state =>
        let acc1 := Cosmo.dict_setdefault acc room_state.state ⟨0, a.end_time⟩
        let acc2 := Cosmo.dict_add acc1 room_state.state
          (a.state - prev_value.getD 0) a.end_time
        Cosmo.area_cleaned_loop room_history rest (some a.state) acc2
    else
      Cosmo.area_cleaned_loop room_history rest (some a.state) acc

/-- Method `CosmoMonitor._get_area_cleaned_by_room` (src/apps/cosmo/
cosmo_monitor.py lines 487-523). -/
def Cosmo.get_area_cleaned_by_room (room_history : List (StateTypeInfo Room))
    (area_cleaned_history : List (StateTypeInfo ℚ)) :
    Option (List (Room × AreaCleanedByRoom)) :=
  Cosmo.area_cleaned_loop room_history area_cleaned_history none []

/-- The per-room threshold decision of `CosmoMonitor.log_cleaning_time`
(src/apps/cosmo/cosmo_monitor.py lines 626-637): when the accumulated area
reaches `room.minimum_clean_area` the room's `end_time` is written to its
input_datetime (returned here as `(true, some end_time)`); otherwise
nothing is written (`(false, none)`).  The `minimum_clean_area` lookup
itself can raise `KeyError`, hence the outer `Option`. -/
def Cosmo.clean_enough_decision (room : Room) (room_stats : AreaCleanedByRoom) :
    Option (Bool × Option Int) :=
  (Room.minimum_clean_area room).map fun min_area =>
    if room_stats.area ≥ min_area then (true, some room_stats.end_time)
    else (false, none)

/-- The `while state_history:` merge loop of `_History.from_state_history`
in src/apps/cosmo_monitor/cosmo_monitor.py (lines 199-241).  Differences
from the `Cosmo` version: the too-late discard compares `last_changed`
against the fixed `upper` limit, unavailable samples are discarded inside
the loop when `rm` (`remove_unavailable_states`) is true, there is no
filter policy, and the end-time cursor is not a mutable variable. -/
def CosmoMonitor.mergeStates {S : Type} [DecidableEq S] (unavail : S → Bool)
    (rm : Bool) (lower upper : Int) :
    List (HassStateTypeInfo S) → List (StateTypeInfo S) → List (StateTypeInfo S)
  | [], merged => merged
  | s :: rest, [] =>
    if s.last_changed > upper ∨ (rm && unavail s.state) = true then
      CosmoMonitor.mergeStates unavail rm lower upper rest []
    else if s.last_changed < lower then
      [⟨s.state, lower, upper⟩]
    else
      CosmoMonitor.mergeStates unavail rm lower upper rest
        [⟨s.state, s.last_changed, upper⟩]
  | s :: rest, next :: tail =>
    if s.last_changed > upper ∨ (rm && unavail s.state) = true then
      CosmoMonitor.mergeStates unavail rm lower upper rest (next :: tail)
    else if next.state = s.state then
      CosmoMonitor.mergeStates unavail rm lower upper rest
        (⟨next.state, if s.last_changed < lower then lower else s.last_changed,
          next.end_time⟩ :: tail)
    else if s.last_changed < lower then
      ⟨s.state, lower, next.start_time⟩ :: next :: tail
    else
      CosmoMonitor.mergeStates unavail rm lower upper rest
        (⟨s.state, s.last_changed, next.start_time⟩ :: next :: tail)

/-- Class `_History` of src/apps/cosmo_monitor/cosmo_monitor.py (lines
120-132): in this version the history stores its `lower_limit` and
`upper_limit` as plain fields alongside the reconstructed states. -/
structure CosmoMonitor.History (S : Type) where
  states : List (StateTypeInfo S)
  lower_limit : Int
  upper_limit : Int
deriving DecidableEq, Repr

/-- Classmethod `_History.from_state_history` of
src/apps/cosmo_monitor/cosmo_monitor.py (lines 134-251). -/
def CosmoMonitor.from_state_history {S : Type} [DecidableEq S] (unavail : S → Bool)
    (rm : Bool) (samples : List (HassStateTypeInfo S))
    (lower_limit upper_limit : Int) (rev : Bool) : CosmoMonitor.History S :=
  let pending := (sortByUpdated samples).reverse
  let merged := CosmoMonitor.mergeStates unavail rm lower_limit upper_limit pending []
  ⟨if rev then merged.reverse else merged, lower_limit, upper_limit⟩

/-- Contiguity of a reconstructed history, oldest-first: the end of each
interval is the start of the next. -/
def Contiguous {S : Type} (l : List (StateTypeInfo S)) : Prop :=
  List.Chain' (fun a b => a.end_time = b.start_time) l

/-- No two adjacent intervals of a history hold the same state value. -/
def AdjacentStatesDistinct {S : Type} (l : List (StateTypeInfo S)) : Prop :=
  List.Chain' (fun a b => a.state ≠ b.state) l

/-- The final (chronologically newest) interval of the history, if any, ends
exactly at the given upper limit. -/
def LastEndsAt {S : Type} (upper : Int) (l : List (StateTypeInfo S)) : Prop :=
  ∀ x ∈ l.getLast?, x.end_time = upper

/-- Modelled from the spec's words for the coverage property of claim C2: a
non-empty history whose intervals are strictly ordered and non-overlapping
(each interval's start is before its end), contiguous (the end of each
interval equals the start of the next), and which together span exactly
[lower, upper]: the first interval starts at `lower` and the last one ends
at `upper`. -/
def SpecHistoryCoverage {S : Type} (lower upper : Int)
    (l : List (StateTypeInfo S)) : Prop :=
  l ≠ [] ∧ Contiguous l ∧ (∀ x ∈ l, x.start_time < x.end_time) ∧
    (l.head?.map fun x => x.start_time) = some lower ∧
    (l.getLast?.map fun x => x.end_time) = some upper

lemma mem_insertByUpdated {S : Type} {s x : HassStateTypeInfo S}
    (l : List (HassStateTypeInfo S)) :
    x ∈ insertByUpdated s l ↔ x = s ∨ x ∈ l := by
  induction l with
  | nil => simp [insertByUpdated]
  | cons t ts ih =>
    simp only [insertByUpdated]
    split
    · simp only [List.mem_cons, ih]
      tauto
    · simp [List.mem_cons]

lemma mem_sortByUpdated {S : Type} {x : HassStateTypeInfo S}
    (l : List (HassStateTypeInfo S)) :
    x ∈ sortByUpdated l ↔ x ∈ l := by
  induction l with
  | nil => simp [sortByUpdated]
  | cons s rest ih => simp [sortByUpdated, mem_insertByUpdated, ih]

lemma chain'_replace_head {α : Type} {R : α → α → Prop} {a a' : α}
    (h : ∀ b, R a b → R a' b) {l : List α} (hc : List.Chain' R (a :: l)) :
    List.Chain' R (a' :: l) := by
  cases l with
  | nil => simp
  | cons b t =>
    rw [List.chain'_cons] at hc ⊢
    exact ⟨h b hc.1, hc.2⟩

lemma lastEndsAt_replace_head {S : Type} {u : Int} {a a' : StateTypeInfo S}
    (h : a'.end_time = a.end_time) {l : List (StateTypeInfo S)}
    (hl : LastEndsAt u (a :: l)) : LastEndsAt u (a' :: l) := by
  cases l with
  | nil => simp_all [LastEndsAt]
  | cons b t =>
    simp only [LastEndsAt, List.getLast?_cons_cons] at hl ⊢
    exact hl

lemma lastEndsAt_cons_cons {S : Type} {u : Int} {a b : StateTypeInfo S}
    {l : List (StateTypeInfo S)} (h : LastEndsAt u (b :: l)) :
    LastEndsAt u (a :: b :: l) := by
  simpa [LastEndsAt, List.getLast?_cons_cons] using h

lemma Cosmo.mergeStates_invariants {S : Type} [DecidableEq S] (unavail : S → Bool)
    (filt : Cosmo.FilterFn S) (lower upper : Int) :
    ∀ (pending : List (HassStateTypeInfo S)) (merged : List (StateTypeInfo S)) (endT : Int),
      (∀ s ∈ pending, unavail s.state = false) →
      (merged = [] → endT = upper) →
      Contiguous merged → AdjacentStatesDistinct merged → LastEndsAt upper merged →
      (∀ x ∈ merged, unavail x.state = false) →
      Contiguous (Cosmo.mergeStates filt lower pending merged endT) ∧
      AdjacentStatesDistinct (Cosmo.mergeStates filt lower pending merged endT) ∧
      LastEndsAt upper (Cosmo.mergeStates filt lower pending merged endT) ∧
      (∀ x ∈ Cosmo.mergeStates filt lower pending merged endT, unavail x.state = false) := by
  intro pending
  induction pending with
  | nil =>
    intro merged endT _ _ hc ha hl hu
    simpa only [Cosmo.mergeStates] using ⟨hc, ha, hl, hu⟩
  | cons s rest ih =>
    intro merged endT hp hemp hc ha hl hu
    have hps : unavail s.state = false := hp s (List.mem_cons_self _ _)
    have hpr : ∀ t ∈ rest, unavail t.state = false :=
      fun t ht => hp t (List.mem_cons_of_mem _ ht)
    cases merged with
    | nil =>
      have hend : endT = upper := hemp rfl
      simp only [Cosmo.mergeStates]
      by_cases hdisc : s.last_updated > endT ∨ filt rest.head? s none = true
      · rw [if_pos hdisc]
        exact ih [] endT hpr hemp hc ha hl hu
      · rw [if_neg hdisc]
        by_cases hbreak : s.last_updated < lower
        · rw [if_pos hbreak]
          refine ⟨?_, ?_, ?_, ?_⟩
          · simp [Contiguous]
          · simp [AdjacentStatesDistinct]
          · simp [LastEndsAt, hend]
          · simpa using hps
        · rw [if_neg hbreak]
          exact ih _ endT hpr (by simp) (by simp [Contiguous])
            (by simp [AdjacentStatesDistinct]) (by simp [LastEndsAt, hend])
            (by simpa using hps)
    | cons next tail =>
      simp only [Cosmo.mergeStates]
      by_cases hdisc : s.last_updated > endT ∨ filt rest.head? s (some next) = true
      · rw [if_pos hdisc]
        exact ih (next :: tail) endT hpr hemp hc ha hl hu
      · rw [if_neg hdisc]
        by_cases hst : next.state = s.state
        · rw [if_pos hst]
          have hc' : Contiguous (⟨next.state, max lower s.last_changed, next.end_time⟩ :: tail) := by
            cases tail with
            | nil => simp [Contiguous]
            | cons b t =>
              simp only [Contiguous, List.chain'_cons] at hc ⊢
              exact ⟨hc.1, hc.2⟩
          have ha' : AdjacentStatesDistinct
              (⟨next.state, max lower s.last_changed, next.end_time⟩ :: tail) := by
            cases tail with
            | nil => simp [AdjacentStatesDistinct]
            | cons b t =>
              simp only [AdjacentStatesDistinct, List.chain'_cons] at ha ⊢
              exact ⟨ha.1, ha.2⟩
          have hl' : LastEndsAt upper
              (⟨next.state, max lower s.last_changed, next.end_time⟩ :: tail) := by
            cases tail with
            | nil =>
              intro x hx
              simp only [List.getLast?_singleton, Option.mem_def, Option.some.injEq] at hx
              subst hx
              exact hl next (by simp)
            | cons b t =>
              simp only [LastEndsAt, List.getLast?_cons_cons] at hl ⊢
              exact hl
          have hu' : ∀ x ∈ (⟨next.state, max lower s.last_changed, next.end_time⟩ :: tail),
              unavail x.state = false := by
            intro x hx
            rcases List.mem_cons.mp hx with h | h
            · subst h; exact hu next (List.mem_cons_self _ _)
            · exact hu x (List.mem_cons_of_mem _ h)
          exact ih _ endT hpr (by simp) hc' ha' hl' hu'
        · rw [if_neg hst]
          have hc' : Contiguous
              (⟨s.state, max lower s.last_changed, next.start_time⟩ :: next :: tail) :=
            List.chain'_cons.mpr ⟨rfl, hc⟩
          have ha' : AdjacentStatesDistinct
              (⟨s.state, max lower s.last_changed, next.start_time⟩ :: next :: tail) :=
            List.chain'_cons.mpr ⟨fun hh => hst hh.symm, ha⟩
          have hl' : LastEndsAt upper
              (⟨s.state, max lower s.last_changed, next.start_time⟩ :: next :: tail) :=
            lastEndsAt_cons_cons hl
          have hu' : ∀ x ∈ (⟨s.state, max lower s.last_changed, next.start_time⟩ :: next :: tail),
              unavail x.state = false := by
            intro x hx
            rcases List.mem_cons.mp hx with h | h
            · subst h; exact hps
            · exact hu x h
          by_cases hbreak : s.last_updated < lower
          · rw [if_pos hbreak]
            exact ⟨hc', ha', hl', hu'⟩
          · rw [if_neg hbreak]
            exact ih _ next.start_time hpr (by simp) hc' ha' hl' hu'

lemma CosmoMonitor.mergeStates_monitor_invariants {S : Type} [DecidableEq S] (unavail : S → Bool)
    (rm : Bool) (lower upper : Int) :
    ∀ (pending : List (HassStateTypeInfo S)) (merged : List (StateTypeInfo S)),
      Contiguous merged → AdjacentStatesDistinct merged → LastEndsAt upper merged →
      (rm = true → ∀ x ∈ merged, unavail x.state = false) →
      Contiguous (CosmoMonitor.mergeStates unavail rm lower upper pending merged) ∧
      AdjacentStatesDistinct (CosmoMonitor.mergeStates unavail rm lower upper pending merged) ∧
      LastEndsAt upper (CosmoMonitor.mergeStates unavail rm lower upper pending merged) ∧
      (rm = true → ∀ x ∈ CosmoMonitor.mergeStates unavail rm lower upper pending merged,
        unavail x.state = false) := by
  intro pending
  induction pending with
  | nil =>
    intro merged hc ha hl hu
    simpa only [CosmoMonitor.mergeStates] using ⟨hc, ha, hl, hu⟩
  | cons s rest ih =>
    intro merged hc ha hl hu
    cases merged with
    | nil =>
      simp only [CosmoMonitor.mergeStates]
      by_cases hdisc : s.last_changed > upper ∨ (rm && unavail s.state) = true
      · rw [if_pos hdisc]
        exact ih [] hc ha hl hu
      · rw [if_neg hdisc]
        have hsu : rm = true → unavail s.state = false := by
          intro hrm
          subst hrm
          have hn := (not_or.mp hdisc).2
          simpa using hn
        by_cases hbreak : s.last_changed < lower
        · rw [if_pos hbreak]
          refine ⟨by simp [Contiguous], by simp [AdjacentStatesDistinct],
            by simp [LastEndsAt], ?_⟩
          intro hrm x hx
          simp only [List.mem_singleton] at hx
          subst hx
          exact hsu hrm
        · rw [if_neg hbreak]
          refine ih _ (by simp [Contiguous]) (by simp [AdjacentStatesDistinct])
            (by simp [LastEndsAt]) ?_
          intro hrm x hx
          simp only [List.mem_singleton] at hx
          subst hx
          exact hsu hrm
    | cons next tail =>
      simp only [CosmoMonitor.mergeStates]
      by_cases hdisc : s.last_changed > upper ∨ (rm && unavail s.state) = true
      · rw [if_pos hdisc]
        exact ih (next :: tail) hc ha hl hu
      · rw [if_neg hdisc]
        have hsu : rm = true → unavail s.state = false := by
          intro hrm
          subst hrm
          have hn := (not_or.mp hdisc).2
          simpa using hn
        by_cases hst : next.state = s.state
        · rw [if_pos hst]
          refine ih _ ?_ ?_ ?_ ?_
          · cases tail with
            | nil => simp [Contiguous]
            | cons b t =>
              simp only [Contiguous, List.chain'_cons] at hc ⊢
              exact ⟨hc.1, hc.2⟩
          · cases tail with
            | nil => simp [AdjacentStatesDistinct]
            | cons b t =>
              simp only [AdjacentStatesDistinct, List.chain'_cons] at ha ⊢
              exact ⟨ha.1, ha.2⟩
          · cases tail with
            | nil =>
              intro x hx
              simp only [List.getLast?_singleton, Option.mem_def, Option.some.injEq] at hx
              subst hx
              exact hl next (by simp)
            | cons b t =>
              simp only [LastEndsAt, List.getLast?_cons_cons] at hl ⊢
              exact hl
          · intro hrm x hx
            rcases List.mem_cons.mp hx with h | h
            · subst h
              exact hu hrm next (List.mem_cons_self _ _)
            · exact hu hrm x (List.mem_cons_of_mem _ h)
        · rw [if_neg hst]
          by_cases hbreak : s.last_changed < lower
          · rw [if_pos hbreak]
            refine ⟨List.chain'_cons.mpr ⟨rfl, hc⟩,
              List.chain'_cons.mpr ⟨fun hh => hst hh.symm, ha⟩,
              lastEndsAt_cons_cons hl, ?_⟩
            intro hrm x hx
            rcases List.mem_cons.mp hx with h | h
            · subst h
              exact hsu hrm
            · exact hu hrm x h
          · rw [if_neg hbreak]
            refine ih _ (List.chain'_cons.mpr ⟨rfl, hc⟩)
              (List.chain'_cons.mpr ⟨fun hh => hst hh.symm, ha⟩)
              (lastEndsAt_cons_cons hl) ?_
            intro hrm x hx
            rcases List.mem_cons.mp hx with h | h
            · subst h
              exact hsu hrm
            · exact hu hrm x h

lemma Cosmo.from_state_history_invariants {S : Type} [DecidableEq S] (unavail : S → Bool)
    (filt : Cosmo.FilterFn S) (samples : List (HassStateTypeInfo S)) (lower upper : Int) :
    Contiguous (Cosmo.from_state_history unavail filt samples lower upper false) ∧
    AdjacentStatesDistinct (Cosmo.from_state_history unavail filt samples lower upper false) ∧
    LastEndsAt upper (Cosmo.from_state_history unavail filt samples lower upper false) ∧
    ∀ x ∈ Cosmo.from_state_history unavail filt samples lower upper false,
      unavail x.state = false := by
  have hpending : ∀ t ∈ (sortByUpdated (samples.filter fun s => !unavail s.state)).reverse,
      unavail t.state = false := by
    intro t ht
    rw [List.mem_reverse, mem_sortByUpdated] at ht
    simpa using (List.mem_filter.mp ht).2
  have h := Cosmo.mergeStates_invariants unavail filt lower upper
    (sortByUpdated (samples.filter fun s => !unavail s.state)).reverse [] upper
    hpending (fun _ => rfl) (by simp [Contiguous]) (by simp [AdjacentStatesDistinct])
    (by simp [LastEndsAt]) (by simp)
  have hfe : (Cosmo.mergeStates filt lower
      (sortByUpdated (samples.filter fun s => !unavail s.state)).reverse [] upper).filter
        (fun st => !unavail st.state) =
      Cosmo.mergeStates filt lower
        (sortByUpdated (samples.filter fun s => !unavail s.state)).reverse [] upper :=
    List.filter_eq_self.mpr fun a ha => by simp [h.2.2.2 a ha]
  simp only [Cosmo.from_state_history, Bool.false_eq_true, if_false]
  rw [hfe]
  exact h

lemma CosmoMonitor.from_state_history_monitor_invariants {S : Type} [DecidableEq S]
    (unavail : S → Bool) (rm : Bool) (samples : List (HassStateTypeInfo S))
    (lower upper : Int) :
    Contiguous (CosmoMonitor.from_state_history unavail rm samples lower upper false).states ∧
    AdjacentStatesDistinct
      (CosmoMonitor.from_state_history unavail rm samples lower upper false).states ∧
    LastEndsAt upper (CosmoMonitor.from_state_history unavail rm samples lower upper false).states ∧
    (rm = true → ∀ x ∈ (CosmoMonitor.from_state_history unavail rm samples
      lower upper false).states, unavail x.state = false) := by
  have h := CosmoMonitor.mergeStates_monitor_invariants unavail rm lower upper
    (sortByUpdated samples).reverse [] (by simp [Contiguous])
    (by simp [AdjacentStatesDistinct]) (by simp [LastEndsAt]) (by simp)
  simpa only [CosmoMonitor.from_state_history, Bool.false_eq_true, if_false] using h

lemma Cosmo.from_state_history_true_eq {S : Type} [DecidableEq S] (unavail : S → Bool)
    (filt : Cosmo.FilterFn S) (samples : List (HassStateTypeInfo S)) (lower upper : Int) :
    Cosmo.from_state_history unavail filt samples lower upper true =
      (Cosmo.from_state_history unavail filt samples lower upper false).reverse := by
  simp [Cosmo.from_state_history]

lemma CosmoMonitor.from_state_history_monitor_true_eq {S : Type} [DecidableEq S]
    (unavail : S → Bool) (rm : Bool) (samples : List (HassStateTypeInfo S))
    (lower upper : Int) :
    (CosmoMonitor.from_state_history unavail rm samples lower upper true).states =
      ((CosmoMonitor.from_state_history unavail rm samples lower upper false).states).reverse := by
  simp [CosmoMonitor.from_state_history]

lemma adjacentStatesDistinct_reverse {S : Type} {l : List (StateTypeInfo S)}
    (h : AdjacentStatesDistinct l) : AdjacentStatesDistinct l.reverse := by
  simp only [AdjacentStatesDistinct, List.chain'_reverse] at h ⊢
  exact List.Chain'.imp (fun a b hab hh => hab hh.symm) h

lemma Room.is_unavailable_eq_false {r : Room} :
    r.is_unavailable = false ↔ r ≠ Room.unavailable := by
  cases r <;> simp [Room.is_unavailable]

/-- C1: evaluating the backward session scan of
`CosmoMonitor._get_cleaning_period` at the claim's own example (newest
first: a non-cleaning non-paused interval over [3,4], cleaning over [2,3],
paused over [1,2], cleaning over [0,1]).  The scan exhausts the history
without hitting the `break`, so it falls into the `for ... else` clause and
raises `ValueError("No cleaning task status found")` (modelled `none`) even
though active intervals were found; the claim (and the spec) say this
history yields the session [0, 3].  Appending one older non-cleaning
non-paused interval makes the `break` fire and the very same boundary
logic then returns [0, 3], exhibiting the `for ... else` placement as the
slip. -/
theorem c1_cleaning_period_scan_on_spec_example :
    Cosmo.cleaning_period_scan
      [⟨TaskStatus.completed, 3, 4⟩, ⟨TaskStatus.cleaning, 2, 3⟩,
        ⟨TaskStatus.cleaning_paused, 1, 2⟩, ⟨TaskStatus.cleaning, 0, 1⟩] none = none ∧
    Cosmo.cleaning_period_scan
      [⟨TaskStatus.completed, 3, 4⟩, ⟨TaskStatus.cleaning, 2, 3⟩,
        ⟨TaskStatus.cleaning_paused, 1, 2⟩, ⟨TaskStatus.cleaning, 0, 1⟩,
        ⟨TaskStatus.completed, -1, 0⟩] none = some (0, 3) := by
  exact ⟨rfl, rfl⟩

/-- C2 counterexample: the window [0, 10] is valid and the sample set is
non-empty, yet the reconstructed history is
[kitchen over [8, 2], office over [2, 10]]: its first interval has its
start after its end (the intervals are not strictly ordered and not
non-overlapping) and it does not span [0, 10], refuting the claim as
stated. -/
theorem c2_counterexample :
    Cosmo.from_state_history Room.is_unavailable Cosmo.filter_current_state_out
      [⟨Room.kitchen, 8, 4⟩, ⟨Room.office, 2, 5⟩] 0 10 false =
      [⟨Room.kitchen, 8, 2⟩, ⟨Room.office, 2, 10⟩] ∧
    ¬ SpecHistoryCoverage 0 10
      (Cosmo.from_state_history Room.is_unavailable Cosmo.filter_current_state_out
        [⟨Room.kitchen, 8, 4⟩, ⟨Room.office, 2, 5⟩] 0 10 false) := by
  constructor
  · rfl
  · intro h
    have h4 := h.2.2.2.1
    rw [show Cosmo.from_state_history Room.is_unavailable Cosmo.filter_current_state_out
      [⟨Room.kitchen, 8, 4⟩, ⟨Room.office, 2, 5⟩] 0 10 false =
      [⟨Room.kitchen, 8, 2⟩, ⟨Room.office, 2, 10⟩] from rfl] at h4
    simp at h4

/-- C2 (amended): for every window, every sample set and every filter
policy, in both reconstruction variants, the history (oldest-first) is
contiguous — the end of each interval equals the start of the next — and
its final interval, when one exists, ends exactly at `upper_limit`; so the
intervals together span [start of first interval, upper_limit].  The first
interval's start equals `lower_limit` (exact coverage), and strict
ordering of the intervals, hold only for sample sets whose timestamps
reach below the window and respect the sampling order, not in general. -/
theorem c2_reconstruction_contiguous_amended {S : Type} [DecidableEq S]
    (unavail : S → Bool) (filt : Cosmo.FilterFn S) (rm : Bool)
    (samples : List (HassStateTypeInfo S)) (lower upper : Int) :
    (Contiguous (Cosmo.from_state_history unavail filt samples lower upper false) ∧
      LastEndsAt upper (Cosmo.from_state_history unavail filt samples lower upper false)) ∧
    (Contiguous (CosmoMonitor.from_state_history unavail rm samples lower upper false).states ∧
      LastEndsAt upper
        (CosmoMonitor.from_state_history unavail rm samples lower upper false).states) := by
  obtain ⟨h1, -, h3, -⟩ := Cosmo.from_state_history_invariants unavail filt samples lower upper
  obtain ⟨g1, -, g3, -⟩ :=
    CosmoMonitor.from_state_history_monitor_invariants unavail rm samples lower upper
  exact ⟨⟨h1, h3⟩, ⟨g1, g3⟩⟩

/-- C3 counterexample: under the default (always-false) filter policy, a
lone sample whose state is the `UNAVAILABLE` sentinel yields no interval at
all (the `_filter_unavailable_states` validator drops it before the merge
loop), while the identical sample with an ordinary state yields one
interval spanning the window — refuting the claim that an UNAVAILABLE
sample is treated like any other state by default. -/
theorem c3_counterexample :
    Cosmo.from_state_history Room.is_unavailable Cosmo.filter_current_state_out
      [⟨Room.unavailable, 0, 0⟩] 0 10 false = [] ∧
    Cosmo.from_state_history Room.is_unavailable Cosmo.filter_current_state_out
      [⟨Room.kitchen, 0, 0⟩] 0 10 false = [⟨Room.kitchen, 0, 10⟩] := by
  exact ⟨rfl, rfl⟩

/-- C3 (amended): UNAVAILABLE samples are dropped by default, independently
of the FilterPolicy: the cosmo app's validator removes them
unconditionally before reconstruction, and the cosmo_monitor app removes
them whenever `remove_unavailable_states` is true, its default.  Under
these defaults no interval of any reconstructed history ever carries the
UNAVAILABLE sentinel, whatever the samples, window, filter policy and
ordering. -/
theorem c3_unavailable_dropped_amended (filt : Cosmo.FilterFn Room)
    (samples : List (HassStateTypeInfo Room)) (lower upper : Int) (rev : Bool) :
    (∀ x ∈ Cosmo.from_state_history Room.is_unavailable filt samples lower upper rev,
      Room.is_unavailable x.state = false) ∧
    (∀ x ∈ (CosmoMonitor.from_state_history Room.is_unavailable true samples
      lower upper rev).states, Room.is_unavailable x.state = false) := by
  obtain ⟨-, -, -, hu⟩ :=
    Cosmo.from_state_history_invariants Room.is_unavailable filt samples lower upper
  obtain ⟨-, -, -, gu⟩ :=
    CosmoMonitor.from_state_history_monitor_invariants Room.is_unavailable true samples lower upper
  cases rev with
  | false => exact ⟨hu, gu rfl⟩
  | true =>
    rw [Cosmo.from_state_history_true_eq, CosmoMonitor.from_state_history_monitor_true_eq]
    exact ⟨fun x hx => hu x (List.mem_reverse.mp hx),
      fun x hx => gu rfl x (List.mem_reverse.mp hx)⟩

/-- C4 counterexample: reconstructing from zero samples over the window
[5, 9] yields an empty history, but its limits do not both equal the
requested lower limit: in the cosmo_monitor variant `upper_limit` is 9,
the requested upper limit, and 9 is not 5; in the cosmo variant
`lower_limit` is `states[0].start_time`, which on an empty history raises
`IndexError` (modelled `none`) rather than returning 5. -/
theorem c4_counterexample :
    (CosmoMonitor.from_state_history Room.is_unavailable true [] 5 9 false).states = [] ∧
    (CosmoMonitor.from_state_history Room.is_unavailable true [] 5 9 false).upper_limit = 9 ∧
    (9 : Int) ≠ 5 ∧
    Cosmo.lower_limit? (Cosmo.from_state_history Room.is_unavailable
      Cosmo.filter_current_state_out [] 5 9 false) = none := by
  refine ⟨rfl, rfl, by decide, rfl⟩

/-- C4 (amended): an empty sample set yields an empty history and no error
during construction, for every window and ordering.  In the cosmo_monitor
variant the empty history's `lower_limit` field equals the requested lower
limit and its `upper_limit` field equals the requested upper limit; in the
cosmo variant the `lower_limit` and `upper_limit` properties of the empty
history are undefined (they raise `IndexError`, modelled `none`). -/
theorem c4_empty_history_amended (lower upper : Int) (rev : Bool) :
    (CosmoMonitor.from_state_history Room.is_unavailable true [] lower upper rev).states = [] ∧
    (CosmoMonitor.from_state_history Room.is_unavailable true [] lower upper rev).lower_limit
      = lower ∧
    (CosmoMonitor.from_state_history Room.is_unavailable true [] lower upper rev).upper_limit
      = upper ∧
    Cosmo.from_state_history Room.is_unavailable Cosmo.filter_current_state_out
      [] lower upper rev = [] ∧
    Cosmo.lower_limit? (Cosmo.from_state_history Room.is_unavailable
      Cosmo.filter_current_state_out [] lower upper rev) = none ∧
    Cosmo.upper_limit? (Cosmo.from_state_history Room.is_unavailable
      Cosmo.filter_current_state_out [] lower upper rev) = none := by
  cases rev <;>
    simp [CosmoMonitor.from_state_history, Cosmo.from_state_history, sortByUpdated,
      CosmoMonitor.mergeStates, Cosmo.mergeStates, Cosmo.lower_limit?, Cosmo.upper_limit?]

/-- C5 counterexample: window [0, 10], one sample whose `last_changed` is 5
(at or before the upper limit) but whose `last_updated` is 11.  The cosmo
variant discards it — the reconstruction is empty — although its
changed_at is not after the upper limit, refuting the claim that a sample
whose changed_at is at or before upper_limit is never discarded as too
late. -/
theorem c5_counterexample :
    Cosmo.from_state_history Room.is_unavailable Cosmo.filter_current_state_out
      [⟨Room.kitchen, 5, 11⟩] 0 10 false = [] ∧ (5 : Int) ≤ 10 := by
  exact ⟨rfl, by decide⟩

/-- C5 (amended): the too-late discard tests different timestamps in the
two variants.  In the cosmo variant it compares the sample's observed_at
(`last_updated`) with the end cursor, so a lone non-UNAVAILABLE sample
yields no interval exactly when its `last_updated` is strictly after
`upper_limit`; in the cosmo_monitor variant it compares the sample's
changed_at (`last_changed`) with `upper_limit`, as the claim states, so a
lone sample yields no interval exactly when its `last_changed` is strictly
after `upper_limit`. -/
theorem c5_discard_check_amended (s : HassStateTypeInfo Room) (lower upper : Int)
    (h : Room.is_unavailable s.state = false) :
    (Cosmo.from_state_history Room.is_unavailable Cosmo.filter_current_state_out
      [s] lower upper false = [] ↔ upper < s.last_updated) ∧
    ((CosmoMonitor.from_state_history Room.is_unavailable true [s] lower upper false).states
      = [] ↔ upper < s.last_changed) := by
  constructor
  · by_cases hgt : upper < s.last_updated
    · simp [Cosmo.from_state_history, sortByUpdated, insertByUpdated, Cosmo.mergeStates,
        Cosmo.filter_current_state_out, h, hgt]
    · by_cases hbr : s.last_updated < lower
      · simp [Cosmo.from_state_history, sortByUpdated, insertByUpdated, Cosmo.mergeStates,
          Cosmo.filter_current_state_out, h, hgt, hbr]
      · simp [Cosmo.from_state_history, sortByUpdated, insertByUpdated, Cosmo.mergeStates,
          Cosmo.filter_current_state_out, h, hgt, hbr]
  · by_cases hgt : upper < s.last_changed
    · simp [CosmoMonitor.from_state_history, sortByUpdated, insertByUpdated,
        CosmoMonitor.mergeStates, h, hgt]
    · by_cases hbr : s.last_changed < lower
      · simp [CosmoMonitor.from_state_history, sortByUpdated, insertByUpdated,
          CosmoMonitor.mergeStates, h, hgt, hbr]
      · simp [CosmoMonitor.from_state_history, sortByUpdated, insertByUpdated,
          CosmoMonitor.mergeStates, h, hgt, hbr]

/-- C5 witness: the amended characterisation evaluated at the concrete
sample with changed_at 5 and observed_at 11 over the window [0, 10]. -/
theorem c5_witness :
    (Cosmo.from_state_history Room.is_unavailable Cosmo.filter_current_state_out
      [⟨Room.kitchen, 5, 11⟩] 0 10 false = [] ↔ (10 : Int) < 11) ∧
    ((CosmoMonitor.from_state_history Room.is_unavailable true
      [⟨Room.kitchen, 5, 11⟩] 0 10 false).states = [] ↔ (10 : Int) < 5) :=
  c5_discard_check_amended ⟨Room.kitchen, 5, 11⟩ 0 10 rfl

/-- C6: the debounce filter of `CurrentRoomHistory` drops a candidate
exactly when an older pending sample and a newer emitted interval both
exist, share the same state, and the newer interval's start minus the
candidate's last-observed time is under 20 seconds; and the samples
kitchen at 0, office at 5, kitchen at 8 over the window [0, 30] reconstruct
to the single interval kitchen over [0, 30]. -/
theorem c6_debounce_filter :
    (∀ (prev : Option (HassStateTypeInfo Room)) (curr : HassStateTypeInfo Room)
        (next : Option (StateTypeInfo Room)),
      Cosmo.CurrentRoomHistory.filter_current_state_out prev curr next = true ↔
        ∃ p n, prev = some p ∧ next = some n ∧ p.state = n.state ∧
          n.start_time - curr.last_updated < 20) ∧
    Cosmo.from_state_history Room.is_unavailable
      Cosmo.CurrentRoomHistory.filter_current_state_out
      [⟨Room.kitchen, 0, 0⟩, ⟨Room.office, 5, 5⟩, ⟨Room.kitchen, 8, 8⟩] 0 30 false =
      [⟨Room.kitchen, 0, 30⟩] := by
  constructor
  · intro prev curr next
    cases prev with
    | none => simp [Cosmo.CurrentRoomHistory.filter_current_state_out]
    | some p =>
      cases next with
      | none => simp [Cosmo.CurrentRoomHistory.filter_current_state_out]
      | some n => simp [Cosmo.CurrentRoomHistory.filter_current_state_out]
  · rfl

/-- C7: the reset-artifact filter of `AreaCleanedHistory` drops a sample
exactly when there is no older pending sample, a newer emitted interval
exists, the sample's value is strictly positive, and the newer interval's
value is exactly zero; and the delta samples 12.0 at time 0 (first sample)
and 0.0 at time 1 over the window [0, 10] reconstruct with the 12.0 sample
dropped, leaving only the zero interval over [1, 10]. -/
theorem c7_reset_artifact_filter :
    (∀ (prev : Option (HassStateTypeInfo ℚ)) (curr : HassStateTypeInfo ℚ)
        (next : Option (StateTypeInfo ℚ)),
      Cosmo.AreaCleanedHistory.filter_current_state_out prev curr next = true ↔
        prev = none ∧ ∃ n, next = some n ∧ curr.state > 0 ∧ n.state = 0) ∧
    Cosmo.from_state_history (fun _ => false)
      Cosmo.AreaCleanedHistory.filter_current_state_out
      [⟨(12 : ℚ), 0, 0⟩, ⟨(0 : ℚ), 1, 1⟩] 0 10 false = [⟨(0 : ℚ), 1, 10⟩] := by
  constructor
  · intro prev curr next
    cases prev with
    | none =>
      cases next with
      | none => simp [Cosmo.AreaCleanedHistory.filter_current_state_out]
      | some n => simp [Cosmo.AreaCleanedHistory.filter_current_state_out]
    | some p => simp [Cosmo.AreaCleanedHistory.filter_current_state_out]
  · decide

/-- C8: the attribution pass over a concrete delta history covering every
rule of the claim.  With the room history kitchen over [0, 100), office
over [100, 200) and the delta history 0.0 over [0, 10), 3.0 over [10, 20),
5.2 over [20, 150), 10.1 over [150, 200): the zero-valued interval is
skipped, kitchen accumulates 3.0 then 5.2 - 3.0 for a total of 5.2 with
last end time 150, office accumulates 10.1 - 5.2 = 4.9 with last end time
200; kitchen's 5.2 meets its threshold 5.0 so the decision is true and the
timestamp 150 is emitted, office's 4.9 misses its threshold 5.0 so the
decision is false and no timestamp is emitted. -/
theorem c8_attribution_and_thresholds :
    Cosmo.get_area_cleaned_by_room
      [⟨Room.kitchen, 0, 100⟩, ⟨Room.office, 100, 200⟩]
      [⟨(0 : ℚ), 0, 10⟩, ⟨(3 : ℚ), 10, 20⟩, ⟨(5.2 : ℚ), 20, 150⟩, ⟨(10.1 : ℚ), 150, 200⟩] =
      some [(Room.kitchen, ⟨5.2, 150⟩), (Room.office, ⟨4.9, 200⟩)] ∧
    Cosmo.clean_enough_decision Room.kitchen ⟨5.2, 150⟩ = some (true, some 150) ∧
    Cosmo.clean_enough_decision Room.office ⟨4.9, 200⟩ = some (false, none) := by
  refine ⟨?_, ?_, ?_⟩
  · norm_num [Cosmo.get_area_cleaned_by_room, Cosmo.area_cleaned_loop, state_at,
      Cosmo.dict_setdefault, Cosmo.dict_add, List.map]
    all_goals decide
  · norm_num [Cosmo.clean_enough_decision, Room.minimum_clean_area]
  · norm_num [Cosmo.clean_enough_decision, Room.minimum_clean_area]

/-- C9 counterexample: room history kitchen over [0, 100), delta history
5.0 over [0, 10) then 3.0 over [10, 20).  After the first interval kitchen
has accumulated 5.0; processing the second interval subtracts the running
previous value, giving the negative delta 3.0 - 5.0 = -2.0, which the code
adds as-is: kitchen's accumulated amount drops from 5.0 to 3.0.  The claim
says the delta would be treated as zero and the amount never decreased
(it would have stayed 5.0); no logging or clamping exists in the code. -/
theorem c9_counterexample :
    Cosmo.get_area_cleaned_by_room [⟨Room.kitchen, 0, 100⟩] [⟨(5 : ℚ), 0, 10⟩] =
      some [(Room.kitchen, ⟨5, 10⟩)] ∧
    Cosmo.get_area_cleaned_by_room [⟨Room.kitchen, 0, 100⟩]
      [⟨(5 : ℚ), 0, 10⟩, ⟨(3 : ℚ), 10, 20⟩] = some [(Room.kitchen, ⟨3, 20⟩)] ∧
    (3 : ℚ) < 5 := by
  refine ⟨?_, ?_, by norm_num⟩
  · norm_num [Cosmo.get_area_cleaned_by_room, Cosmo.area_cleaned_loop, state_at,
      Cosmo.dict_setdefault, Cosmo.dict_add]
    all_goals decide
  · norm_num [Cosmo.get_area_cleaned_by_room, Cosmo.area_cleaned_loop, state_at,
      Cosmo.dict_setdefault, Cosmo.dict_add]
    all_goals decide

/-- C9 (amended): the attribution pass applies the delta
`value - previous_value` as-is, with no negativity check, no logging and no
clamping: for any two successive distinct non-zero values attributed to the
same category, the category's accumulated amount ends at the second value —
so when the second value is smaller, the accumulated amount has decreased. -/
theorem c9_negative_delta_applied_amended (v1 v2 : ℚ) (h1 : v1 ≠ 0) (h2 : v2 ≠ 0)
    (h3 : v2 ≠ v1) :
    Cosmo.get_area_cleaned_by_room [⟨Room.kitchen, 0, 100⟩]
      [⟨v1, 0, 10⟩, ⟨v2, 10, 20⟩] = some [(Room.kitchen, ⟨v2, 20⟩)] := by
  simp [Cosmo.get_area_cleaned_by_room, Cosmo.area_cleaned_loop, state_at,
    Cosmo.dict_setdefault, Cosmo.dict_add, h1, h2, h3]

/-- C9 witness: the amended statement evaluated at the concrete values 5
and 3. -/
theorem c9_witness :
    Cosmo.get_area_cleaned_by_room [⟨Room.kitchen, 0, 100⟩]
      [⟨(5 : ℚ), 0, 10⟩, ⟨(3 : ℚ), 10, 20⟩] = some [(Room.kitchen, ⟨3, 20⟩)] :=
  c9_negative_delta_applied_amended 5 3 (by norm_num) (by norm_num) (by norm_num)

/-- C10: for every input sample sequence, window, filter policy and
ordering, in both reconstruction variants, the produced history contains no
two adjacent intervals with equal state values — a non-discarded sample
whose state equals the most recently emitted interval's state is merged
into that interval instead of being emitted separately. -/
theorem c10_no_adjacent_equal_states {S : Type} [DecidableEq S] (unavail : S → Bool)
    (filt : Cosmo.FilterFn S) (rm : Bool) (samples : List (HassStateTypeInfo S))
    (lower upper : Int) (rev : Bool) :
    AdjacentStatesDistinct (Cosmo.from_state_history unavail filt samples lower upper rev) ∧
    AdjacentStatesDistinct
      (CosmoMonitor.from_state_history unavail rm samples lower upper rev).states := by
  obtain ⟨-, ha, -, -⟩ := Cosmo.from_state_history_invariants unavail filt samples lower upper
  obtain ⟨-, ga, -, -⟩ :=
    CosmoMonitor.from_state_history_monitor_invariants unavail rm samples lower upper
  cases rev with
  | false => exact ⟨ha, ga⟩
  | true =>
    rw [Cosmo.from_state_history_true_eq, CosmoMonitor.from_state_history_monitor_true_eq]
    exact ⟨adjacentStatesDistinct_reverse ha, adjacentStatesDistinct_reverse ga⟩
